import Mathlib

/-!
Verification of the reflectometry measurement automation helpers:
the sweep drivers `do1d` / `do2d` and their plotting finalizer
(`doNd_wSubplot.py`), the Qt live plotter (`qt_liveplot.py`) and the
ICT coordinate dictionary (`ICTDictionary.py`).

Setpoint arithmetic is embedded over `ℚ`; the source's `numpy` linspace
produces both endpoints exactly and the sweep code compares setpoints by
exact equality, which `ℚ` models faithfully.  The stateful sweep drivers
are embedded as trace-producing computations: an explicit oracle decides
at which primitive operation (if any) an exception — `KeyboardInterrupt`
or a generic runtime error — is raised, and running a computation yields
the final oracle, the list of observable events (parameter sets, action
invocations, result rows, recorder finalization, plotting) and either a
normal result or the propagated exception.
-/

/-- Model of `np.linspace start stop num` as used at `doNd_wSubplot.py`
lines 167, 242 and 249: `num` evenly spaced points over `[start, stop]`
inclusive; empty for `num = 0` and `[start]` for `num = 1`. -/
def linspace (start stop : ℚ) (num : Nat) : List ℚ :=
  if num = 0 then []
  else if num = 1 then [start]
  else (List.range num).map (fun (i : Nat) => start + (i : ℚ) * (stop - start) / ((num : ℚ) - 1))

/-- The four plot layouts `_create_plots` can dispatch to
(`doNd_wSubplot.py` lines 359-367). -/
inductive PlotLayout
  | sideBySidePair
  | verticalTriple
  | grid2x2
  | onePerColumn
deriving DecidableEq

/-- Layout dispatch of `_create_plots` (`doNd_wSubplot.py` lines 359-367):
`subplot_by_id_2` for 2 dependent parameters, `subplot_by_id_3` for 3,
`subplot_by_id_4` for 4, and plain `plot_by_id` (one axes per dependent
column) for every other count. -/
def createPlotsLayout (nDep : Nat) : PlotLayout :=
  if nDep = 2 then PlotLayout.sideBySidePair
  else if nDep = 3 then PlotLayout.verticalTriple
  else if nDep = 4 then PlotLayout.grid2x2
  else PlotLayout.onePerColumn

/-- Model of the polling loop of `QtLivePlot.liveplot`
(`qt_liveplot.py` lines 85-89).  The first argument is the completion
flag currently held (`self.completed`), the list holds the completion
flags returned by the successive `load_by_id` re-fetches inside the
loop.  Each iteration consumes one fetched flag and performs one
`update_plots` call; the returned value is the number of
`update_plots` calls made, or `none` when the flag list is exhausted
before a `true` flag was observed (the loop would still be running). -/
def pollLoop : Bool → List Bool → Option Nat
  | true, _ => some 0
  | false, [] => none
  | false, f :: fs => (pollLoop f fs).map (· + 1)

/-- Model of one pass of `QtLivePlot.liveplot` (`qt_liveplot.py` lines
62-94) restricted to its completion-flag behaviour: the list holds the
completion flags reported by the successive dataset fetches (the head is
the flag of the initial `load_by_id` at line 82, the tail the flags of
the re-fetches inside the `while not self.completed` loop).  The result
is `some u` — `liveplot` reaches `plotting_done = True` having made `u`
`update_plots` calls — or `none` when completion is never observed. -/
def liveplotRun : List Bool → Option Nat
  | [] => none
  | f :: fs => pollLoop f fs

/-- A Python value passed to `Dictionary.addICT`: either a tuple of
numbers or some non-tuple value (the code only ever asks
`type(x) == tuple` and `len(x)`). -/
inductive PyVal
  | tup (xs : List ℚ)
  | nontup
deriving DecidableEq

/-- One stored ICT record, the dictionary value built at
`ICTDictionary.py` line 41. -/
structure ICTEntry where
  g1centre : ℚ
  g1length : ℚ
  g2centre : ℚ
  g2length : ℚ
deriving DecidableEq

/-- The messages `addICT` can print. -/
inductive ICTMsg
  | unlawfulNumber
  | unlawfulCentre
  | successAdded
  | successUpdated
deriving DecidableEq

/-- Python dict assignment `self.dict[k] = v`: replaces any previous
binding of `k`. -/
def dictInsert (d : List (PyVal × ICTEntry)) (k : PyVal) (v : ICTEntry) :
    List (PyVal × ICTEntry) :=
  (k, v) :: d.filter (fun kv => !(kv.1 == k))

/-- Whether a value is a tuple of length `n` (the shape checks at
`ICTDictionary.py` lines 39-40). -/
def isTupOfLen (n : Nat) : PyVal → Bool
  | PyVal.tup xs => xs.length == n
  | PyVal.nontup => false

/-- Model of `Dictionary.addICT` (`ICTDictionary.py` lines 26-52).
Returns the updated stored mapping together with the printed messages.
The entry is written only when `ICTnumber` is a tuple of length 2 and
`ICTcentre` is a tuple of length 4; otherwise an `Unlawful input`
message is printed and the mapping is left untouched.  `self.save()`
(which rewrites the CSV image of the — possibly unchanged — mapping)
and the final success message are reached on every path, exactly as in
the source. -/
def addICT (d : List (PyVal × ICTEntry)) (num centre : PyVal) :
    List (PyVal × ICTEntry) × List ICTMsg :=
  let preexisting := d.any (fun kv => kv.1 == num)
  let core : List (PyVal × ICTEntry) × List ICTMsg :=
    match num with
    | PyVal.tup ns =>
      if ns.length = 2 then
        match centre with
        | PyVal.tup cs =>
          if cs.length = 4 then
            (dictInsert d (PyVal.tup ns)
              ⟨cs.getD 0 0, cs.getD 1 0, cs.getD 2 0, cs.getD 3 0⟩, [])
          else (d, [ICTMsg.unlawfulCentre])
        | PyVal.nontup => (d, [ICTMsg.unlawfulCentre])
      else (d, [ICTMsg.unlawfulNumber])
    | PyVal.nontup => (d, [ICTMsg.unlawfulNumber])
  (core.1, core.2 ++ [if preexisting then ICTMsg.successUpdated else ICTMsg.successAdded])

/-- Kinds of exception that can be raised during a sweep:
`KeyboardInterrupt` (`ki`) or a generic runtime error from an action,
a snapshot or a parameter set (`err`). -/
inductive EKind
  | ki
  | err
deriving DecidableEq

/-- The exception oracle: `some (j, k)` schedules an exception of kind
`k` at the `j`-th upcoming interruptible primitive operation; `none`
schedules nothing. -/
abbrev Oracle (E : Type) := Option (Nat × E)

/-- A stateful computation: given the oracle it returns the remaining
oracle, the emitted event trace, and either a value or the propagated
exception. -/
def MGen (E Ev' α : Type) : Type :=
  Oracle E → Oracle E × List Ev' × Except E α

section MonadOps

variable {E Ev' α β : Type}

/-- Return a value, no events. -/
def MGen.pure (a : α) : MGen E Ev' α := fun o => (o, [], Except.ok a)

/-- Sequencing: exceptions short-circuit, traces concatenate. -/
def MGen.bind (m : MGen E Ev' α) (f : α → MGen E Ev' β) : MGen E Ev' β := fun o =>
  match m o with
  | (o', tr, Except.ok a) =>
    let r := f a o'
    (r.1, tr ++ r.2.1, r.2.2)
  | (o', tr, Except.error e) => (o', tr, Except.error e)

/-- An interruptible primitive operation: if the oracle schedules the
exception now, it is raised instead of the operation happening;
otherwise the operation's event is emitted and the countdown ticks. -/
def prim (e : Ev') : MGen E Ev' Unit := fun o =>
  match o with
  | some (0, k) => (none, [], Except.error k)
  | some (Nat.succ n, k) => (some (n, k), [e], Except.ok ())
  | none => (none, [e], Except.ok ())

/-- An operation modelled as not interruptible: it just emits its
event. -/
def emit (e : Ev') : MGen E Ev' Unit := fun o => (o, [e], Except.ok ())

/-- A `for` loop over a list. -/
def mFor (xs : List α) (f : α → MGen E Ev' Unit) : MGen E Ev' Unit :=
  match xs with
  | [] => MGen.pure ()
  | x :: rest => MGen.bind (f x) (fun _ => mFor rest f)

end MonadOps

/-- Observable events of the sweep drivers. -/
inductive Ev
  | setParam (pid : Nat) (v : ℚ)
  | postDelaySet (pid : Nat) (d : ℚ)
  | getParam (pid : Nat)
  | callFn (tag : Nat)
  | runAction (kind idx : Nat)
  | addRow (row : List (Nat × ℚ))
  | flushData
  | finalizeRec
  | handlePlot
  | createPlots
deriving DecidableEq

/-- Sweep computations. -/
abbrev M (α : Type) := MGen EKind Ev α

/-- One element of `param_meas`: a readable parameter (with its id and
the value its `get()` returns) or a bare callable. -/
inductive PMeas
  | readable (pid : Nat) (v : ℚ)
  | callF (tag : Nat)
deriving DecidableEq

/-- Model of `_process_params_meas` (`doNd_wSubplot.py` lines 26-33):
readable parameters are `get()`-snapshotted and contribute a
`(parameter, value)` pair; callables are invoked and contribute
nothing. -/
def processParamsMeas : List PMeas → M (List (Nat × ℚ))
  | [] => MGen.pure []
  | PMeas.readable pid v :: rest =>
    MGen.bind (prim (Ev.getParam pid)) fun _ =>
    MGen.bind (processParamsMeas rest) fun out =>
    MGen.pure ((pid, v) :: out)
  | PMeas.callF t :: rest =>
    MGen.bind (prim (Ev.callFn t)) fun _ => processParamsMeas rest

/-- The result pairs `_process_params_meas` returns. -/
def measPairs : List PMeas → List (Nat × ℚ)
  | [] => []
  | PMeas.readable pid v :: rest => (pid, v) :: measPairs rest
  | PMeas.callF _ :: rest => measPairs rest

/-- The events `_process_params_meas` emits when nothing raises. -/
def pmTrace : List PMeas → List Ev
  | [] => []
  | PMeas.readable pid _ :: rest => Ev.getParam pid :: pmTrace rest
  | PMeas.callF t :: rest => Ev.callFn t :: pmTrace rest

/-- Number of readable parameters among `param_meas`. -/
def readableCount : List PMeas → Nat
  | [] => 0
  | PMeas.readable _ _ :: rest => readableCount rest + 1
  | PMeas.callF _ :: rest => readableCount rest

/-- Events of the `enter_actions` run by the measurement on entry. -/
def enterTrace (en : Nat) : List Ev :=
  (List.range en).map (fun i => Ev.runAction 0 i)

/-- Events of the `exit_actions` run by the measurement on exit. -/
def exitTrace (ex : Nat) : List Ev :=
  (List.range ex).map (fun i => Ev.runAction 1 i)

/-- Modelled from the spec: the external Measurement Recorder contract
consumed by `_register_actions` and `with meas.run() as datasaver`
(qcodes' `Measurement`, which is not part of this repository).  Per
spec section 6 `open()` is scoped and guarantees finalize-on-exit, and
per section 4.1 step 5 the post-run hooks registered with
`add_after_run` run on every exit path, normal or exceptional: the
recorder runs the `enter_actions` once before the body, and the
`exit_actions` followed by the finalization once after it, whatever the
body's outcome, and then lets any exception continue to propagate. -/
def measRun (en ex : Nat) (body : M Unit) : M Unit := fun o =>
  let r := body o
  (r.1, enterTrace en ++ r.2.1 ++ exitTrace ex ++ [Ev.finalizeRec], r.2.2)

/-- Model of `_catch_keyboard_interrupts` (`doNd_wSubplot.py` lines
70-79) wrapped around the measurement context: a `KeyboardInterrupt`
escaping the body is swallowed and recorded in the returned flag, any
other exception propagates. -/
def catchKeyboardInterrupts (body : M Unit) : M Bool := fun o =>
  match body o with
  | (o', tr, Except.ok _) => (o', tr, Except.ok false)
  | (o', tr, Except.error EKind.ki) => (o', tr, Except.ok true)
  | (o', tr, Except.error EKind.err) => (o', tr, Except.error EKind.err)

/-- The trailing plot event of `_handle_plotting`: `_create_plots` runs
exactly when `do_plot` is true. -/
def plotTail (doPlot : Bool) : List Ev :=
  if doPlot then [Ev.createPlots] else []

/-- Model of `_handle_plotting` (`doNd_wSubplot.py` lines 327-351): it
always runs (building `res`, calling `_create_plots` when `do_plot`),
and afterwards re-raises `KeyboardInterrupt` when the sweep was
interrupted. -/
def handlePlotting (doPlot interrupted : Bool) : M Unit := fun o =>
  (o, Ev.handlePlot :: plotTail doPlot,
    if interrupted then Except.error EKind.ki else Except.ok ())

/-- One sweep dimension: the swept parameter's id, the bounds, the
point count and the delay argument. -/
structure SweepArgs where
  pid : Nat
  start : ℚ
  stop : ℚ
  numPoints : Nat
  delay : ℚ
deriving DecidableEq

/-- The body of one `do1d` loop iteration (`doNd_wSubplot.py` lines
167-175): `before_inner_actions`, `param_set.set(set_point)`, the
measurable snapshot, `datasaver.add_result`, `after_inner_actions`. -/
def do1dStep (a : SweepArgs) (pm : List PMeas) (bi ai : Nat) (sp : ℚ) : M Unit :=
  MGen.bind (mFor (List.range bi) (fun i => prim (Ev.runAction 2 i))) fun _ =>
  MGen.bind (prim (Ev.setParam a.pid sp)) fun _ =>
  MGen.bind (processParamsMeas pm) fun pairs =>
  MGen.bind (prim (Ev.addRow ((a.pid, sp) :: pairs))) fun _ =>
  mFor (List.range ai) (fun i => prim (Ev.runAction 3 i))

/-- Model of `do1d` (`doNd_wSubplot.py` lines 118-176): assign
`post_delay`, then inside `_catch_keyboard_interrupts` and
`meas.run()` sweep `linspace start stop num_points`, and finally hand
off to `_handle_plotting`. -/
def do1d (a : SweepArgs) (pm : List PMeas) (en ex bi ai : Nat) (doPlot : Bool) : M Unit :=
  MGen.bind (emit (Ev.postDelaySet a.pid a.delay)) fun _ =>
  MGen.bind (catchKeyboardInterrupts (measRun en ex
    (mFor (linspace a.start a.stop a.numPoints) (do1dStep a pm bi ai)))) fun itr =>
  handlePlotting doPlot itr

/-- The body of one `do2d` inner-loop iteration (`doNd_wSubplot.py`
lines 249-258): skip re-setting the inner parameter when the setpoint
equals `start2` and `set_before_sweep` holds, otherwise set it; then
snapshot and write the row. -/
def do2dInnerStep (a1 a2 : SweepArgs) (pm : List PMeas) (sbs : Bool) (sp1 sp2 : ℚ) :
    M Unit :=
  MGen.bind (if sp2 = a2.start ∧ sbs = true then MGen.pure ()
             else prim (Ev.setParam a2.pid sp2)) fun _ =>
  MGen.bind (processParamsMeas pm) fun pairs =>
  prim (Ev.addRow ((a1.pid, sp1) :: (a2.pid, sp2) :: pairs))

/-- The body of one `do2d` outer-loop iteration (`doNd_wSubplot.py`
lines 242-262): pre-set the inner parameter to `start2` when
`set_before_sweep`, set the outer parameter, run
`before_inner_actions`, run the inner loop, run `after_inner_actions`,
and flush when `flush_columns`. -/
def do2dOuterStep (a1 a2 : SweepArgs) (pm : List PMeas) (bi ai : Nat)
    (sbs flush : Bool) (sp1 : ℚ) : M Unit :=
  MGen.bind (if sbs = true then prim (Ev.setParam a2.pid a2.start)
             else MGen.pure ()) fun _ =>
  MGen.bind (prim (Ev.setParam a1.pid sp1)) fun _ =>
  MGen.bind (mFor (List.range bi) (fun i => prim (Ev.runAction 2 i))) fun _ =>
  MGen.bind (mFor (linspace a2.start a2.stop a2.numPoints)
    (do2dInnerStep a1 a2 pm sbs sp1)) fun _ =>
  MGen.bind (mFor (List.range ai) (fun i => prim (Ev.runAction 3 i))) fun _ =>
  (if flush = true then emit Ev.flushData else MGen.pure ())

/-- Model of `do2d` (`doNd_wSubplot.py` lines 179-264). -/
def do2d (a1 a2 : SweepArgs) (pm : List PMeas) (en ex bi ai : Nat)
    (sbs flush doPlot : Bool) : M Unit :=
  MGen.bind (emit (Ev.postDelaySet a1.pid a1.delay)) fun _ =>
  MGen.bind (emit (Ev.postDelaySet a2.pid a2.delay)) fun _ =>
  MGen.bind (catchKeyboardInterrupts (measRun en ex
    (mFor (linspace a1.start a1.stop a1.numPoints)
      (do2dOuterStep a1 a2 pm bi ai sbs flush)))) fun itr =>
  handlePlotting doPlot itr

/-- The event trace of a sweep computation under a given oracle. -/
def traceOf (m : M Unit) (o : Oracle EKind) : List Ev := (m o).2.1

/-- The outcome of a sweep computation under a given oracle. -/
def resultOf (m : M Unit) (o : Oracle EKind) : Except EKind Unit := (m o).2.2

/-- Whether an event is a `set()` on the parameter `pid`. -/
def isSetOf (pid : Nat) : Ev → Bool
  | Ev.setParam p _ => p == pid
  | _ => false

/-- Whether an event is a `set()` of the value `v` on the parameter
`pid`. -/
def isSetValOf (pid : Nat) (v : ℚ) : Ev → Bool
  | Ev.setParam p w => p == pid && w == v
  | _ => false

/-- Whether an event is an exit-action invocation. -/
def isExitAct : Ev → Bool
  | Ev.runAction k _ => k == 1
  | _ => false

/-- Whether an event assigns `post_delay` of the parameter `pid`. -/
def isPostDelayOf (pid : Nat) : Ev → Bool
  | Ev.postDelaySet p _ => p == pid
  | _ => false

/-- The result rows written during a trace. -/
def rowsOf (tr : List Ev) : List (List (Nat × ℚ)) :=
  tr.filterMap (fun e => match e with | Ev.addRow r => some r | _ => none)

/-- The rows a completed (uninterrupted) `do1d` run writes. -/
def do1dRows (a : SweepArgs) (pm : List PMeas) (en ex bi ai : Nat) (doPlot : Bool) :
    List (List (Nat × ℚ)) :=
  rowsOf (traceOf (do1d a pm en ex bi ai doPlot) none)

/-- The value of a parameter's `post_delay` attribute after a trace has
run, starting from `init`: the last assignment wins. -/
def postDelayAfter (pid : Nat) : ℚ → List Ev → ℚ
  | init, [] => init
  | init, Ev.postDelaySet p d :: rest => postDelayAfter pid (if p = pid then d else init) rest
  | init, _ :: rest => postDelayAfter pid init rest

/-- Events that the sweep loop body itself can emit (parameter sets and
reads, callable invocations, rows, flushes, before- and after-inner
actions) — as opposed to the recorder-scope events (enter and exit
actions, finalization) and the plotting events. -/
def isLoopEv : Ev → Bool
  | Ev.setParam _ _ => true
  | Ev.getParam _ => true
  | Ev.callFn _ => true
  | Ev.addRow _ => true
  | Ev.flushData => true
  | Ev.runAction k _ => k == 2 || k == 3
  | _ => false

/-- Every event a computation can emit, under every oracle, satisfies
`p`. -/
def emitsOnly {E Ev' α : Type} (p : Ev' → Bool) (m : MGen E Ev' α) : Prop :=
  ∀ o : Oracle E, ∀ e ∈ (m o).2.1, p e = true

/-- The events one uninterrupted `do1d` loop iteration emits. -/
def stepTrace (a : SweepArgs) (pm : List PMeas) (bi ai : Nat) (sp : ℚ) : List Ev :=
  (List.range bi).map (fun i => Ev.runAction 2 i) ++
    Ev.setParam a.pid sp ::
      (pmTrace pm ++
        Ev.addRow ((a.pid, sp) :: measPairs pm) ::
          (List.range ai).map (fun i => Ev.runAction 3 i))

/-- The events one uninterrupted `do2d` inner-loop iteration emits. -/
def inner2Trace (a1 a2 : SweepArgs) (pm : List PMeas) (sbs : Bool) (sp1 sp2 : ℚ) :
    List Ev :=
  (if sp2 = a2.start ∧ sbs = true then [] else [Ev.setParam a2.pid sp2]) ++
    pmTrace pm ++ [Ev.addRow ((a1.pid, sp1) :: (a2.pid, sp2) :: measPairs pm)]

/-- The events one uninterrupted `do2d` outer-loop iteration emits. -/
def outer2Trace (a1 a2 : SweepArgs) (pm : List PMeas) (bi ai : Nat)
    (sbs flush : Bool) (sp1 : ℚ) : List Ev :=
  (if sbs = true then [Ev.setParam a2.pid a2.start] else []) ++
    Ev.setParam a1.pid sp1 ::
      ((List.range bi).map (fun i => Ev.runAction 2 i) ++
        ((linspace a2.start a2.stop a2.numPoints).map
          (inner2Trace a1 a2 pm sbs sp1)).flatten ++
        (List.range ai).map (fun i => Ev.runAction 3 i) ++
        (if flush = true then [Ev.flushData] else []))

/-- Exceptions in the live plotter: an external stop
(`KeyboardInterrupt`-like) or the transient `RuntimeError` raised while
the dataset is not yet ready. -/
inductive LpE
  | stop
  | notReady
deriving DecidableEq

/-- Observable events of the live plotter. -/
inductive LpEv
  | clearEv
  | fetchDataEv
  | addTraceEv
  | loadEv
  | updateEv
  | sleepEv
  | fetchIdEv
  | closeEv
deriving DecidableEq

/-- Live plotter computations. -/
abbrev LpM (α : Type) := MGen LpE LpEv α

/-- The polling loop of `liveplot` (`qt_liveplot.py` lines 85-89) run
for `n` not-yet-completed iterations: re-load the dataset, update the
plots, sleep. -/
def pollIters : Nat → LpM Unit
  | 0 => MGen.pure ()
  | Nat.succ n =>
    MGen.bind (prim LpEv.loadEv) fun _ =>
    MGen.bind (prim LpEv.updateEv) fun _ =>
    MGen.bind (prim LpEv.sleepEv) fun _ =>
    pollIters n

/-- One attempt of the `try` body of `liveplot` (`qt_liveplot.py` lines
66-91): fetch the data, create the plot traces, load the dataset, then
poll until completed. -/
def liveplotAttempt (pollSteps : Nat) : LpM Unit :=
  MGen.bind (prim LpEv.fetchDataEv) fun _ =>
  MGen.bind (prim LpEv.addTraceEv) fun _ =>
  MGen.bind (prim LpEv.loadEv) fun _ =>
  pollIters pollSteps

/-- The retry loop of `liveplot` (`qt_liveplot.py` lines 65-94), with
the unbounded `while not plotting_done` retry bounded by fuel: a
`RuntimeError` (`notReady`) from the attempt is caught, a sleep is
inserted and the attempt retried; an external stop propagates. -/
def liveplotTry : Nat → Nat → LpM Unit
  | 0, _ => MGen.pure ()
  | Nat.succ retries, pollSteps => fun o =>
    match liveplotAttempt pollSteps o with
    | (o', tr, Except.ok a) => (o', tr, Except.ok a)
    | (o', tr, Except.error LpE.stop) => (o', tr, Except.error LpE.stop)
    | (o', tr, Except.error LpE.notReady) =>
      let r := liveplotTry retries pollSteps o'
      (r.1, tr ++ LpEv.sleepEv :: r.2.1, r.2.2)

/-- Model of `QtLivePlot.liveplot` (`qt_liveplot.py` lines 62-94):
clear the window, then run the retrying poll loop. -/
def liveplotM (retries pollSteps : Nat) : LpM Unit :=
  MGen.bind (emit LpEv.clearEv) fun _ => liveplotTry retries pollSteps

/-- The watch loop of `continuous_liveplot` (`qt_liveplot.py` lines
100-105), with the unbounded `while True` bounded by the list of
is-a-newer-run-present answers: fetch the latest run id, re-run
`liveplot` when a newer run appeared, sleep. -/
def watchIters (retries pollSteps : Nat) : List Bool → LpM Unit
  | [] => MGen.pure ()
  | isNew :: rest =>
    MGen.bind (prim LpEv.fetchIdEv) fun _ =>
    MGen.bind (if isNew = true then liveplotM retries pollSteps
               else MGen.pure ()) fun _ =>
    MGen.bind (prim LpEv.sleepEv) fun _ =>
    watchIters retries pollSteps rest

/-- The `try` body of `continuous_liveplot` (`qt_liveplot.py` lines
97-105): one `liveplot` pass, fetch the last run id, then watch for
newer runs. -/
def continuousBody (retries pollSteps : Nat) (news : List Bool) : LpM Unit :=
  MGen.bind (liveplotM retries pollSteps) fun _ =>
  MGen.bind (prim LpEv.fetchIdEv) fun _ =>
  watchIters retries pollSteps news

/-- Model of `QtLivePlot.continuous_liveplot` (`qt_liveplot.py` lines
96-108): the body runs under `try/finally`, so `self.close()` — which
closes the rendering window (`qt_liveplot.py` lines 59-60) — always
runs last, and any exception then continues to propagate. -/
def continuousLiveplot (retries pollSteps : Nat) (news : List Bool) : LpM Unit :=
  fun o =>
    let r := continuousBody retries pollSteps news o
    (r.1, r.2.1 ++ [LpEv.closeEv], r.2.2)

theorem linspace_length (s e : ℚ) (n : Nat) : (linspace s e n).length = n := by
  unfold linspace
  split
  · simp_all
  · split
    · simp_all
    · simp

theorem linspace_head (s e : ℚ) (n : Nat) (h : n ≠ 0) :
    (linspace s e n).head? = some s := by
  by_cases h1 : n = 1
  · simp [linspace, h1]
  · obtain ⟨m, rfl⟩ : ∃ m, n = m + 2 := ⟨n - 2, by omega⟩
    unfold linspace
    rw [if_neg (by omega), if_neg (by omega), List.range_succ_eq_map]
    simp

theorem linspace_getLast (s e : ℚ) (n : Nat) (h : 2 ≤ n) :
    (linspace s e n).getLast? = some e := by
  obtain ⟨m, rfl⟩ : ∃ m, n = m + 2 := ⟨n - 2, by omega⟩
  have hne : (m : ℚ) + 1 ≠ 0 := by positivity
  unfold linspace
  rw [if_neg (by omega), if_neg (by omega), List.range_succ, List.map_append]
  simp
  have h2 : (m : ℚ) + 2 - 1 = (m : ℚ) + 1 := by ring
  rw [h2]
  field_simp

theorem linspace_sorted (s e : ℚ) (n : Nat) (hse : s ≤ e) :
    (linspace s e n).Sorted (· ≤ ·) := by
  unfold linspace
  split
  · simp
  · split
    · simp
    · rename_i h0 h1
      have hn : 2 ≤ n := by omega
      have hc : (0 : ℚ) ≤ (n : ℚ) - 1 := by
        have : (2 : ℚ) ≤ (n : ℚ) := by exact_mod_cast hn
        linarith
      have hd : (0 : ℚ) ≤ (e - s) / ((n : ℚ) - 1) := by
        apply div_nonneg (by linarith) hc
      rw [List.Sorted, List.pairwise_map]
      refine (List.pairwise_lt_range n).imp ?_
      intro a b hab
      have hab' : (a : ℚ) ≤ (b : ℚ) := by exact_mod_cast Nat.le_of_lt hab
      have := mul_le_mul_of_nonneg_right hab' hd
      rw [mul_div_assoc, mul_div_assoc]
      linarith

theorem linspace_countP_start (s e : ℚ) (n : Nat) (hn : 1 ≤ n) (hne : s ≠ e) :
    (linspace s e n).countP (fun x => x == s) = 1 := by
  by_cases h1 : n = 1
  · simp [linspace, h1]
  · obtain ⟨m, rfl⟩ : ∃ m, n = m + 2 := ⟨n - 2, by omega⟩
    unfold linspace
    rw [if_neg (by omega), if_neg (by omega), List.countP_map]
    have hc : (((m + 2 : Nat) : ℚ)) - 1 = (m : ℚ) + 1 := by push_cast; ring
    have hcne : ((m : ℚ) + 1) ≠ 0 := by positivity
    have hkey : ∀ i : Nat, (s + (i : ℚ) * (e - s) / (((m + 2 : Nat) : ℚ) - 1) = s) ↔ i = 0 := by
      intro i
      rw [hc]
      constructor
      · intro hi
        have h2 : (i : ℚ) * (e - s) / ((m : ℚ) + 1) = 0 := by linarith
        rw [div_eq_zero_iff] at h2
        rcases h2 with h2 | h2
        · rcases mul_eq_zero.mp h2 with h3 | h3
          · exact_mod_cast h3
          · exact absurd (by linarith : s = e) hne
        · exact absurd h2 hcne
      · intro hi
        subst hi
        simp
    have hcongr : ∀ i ∈ List.range (m + 2),
        (((fun x => x == s) ∘ fun i : Nat =>
          s + (i : ℚ) * (e - s) / (((m + 2 : Nat) : ℚ) - 1)) i = true ↔ (i == 0) = true) := by
      intro i _
      simp only [Function.comp_apply, beq_iff_eq]
      rw [hkey i]
    rw [List.countP_congr hcongr, List.range_succ_eq_map, List.countP_cons, List.countP_map]
    simp [List.countP_eq_zero]

/-- C2: for every pointCount ≥ 1 and every pair (start, stop), the
setpoint sequence generated for a sweep has length exactly pointCount,
includes start as its first element and (for pointCount ≥ 2) stop as
its last, is non-decreasing when start ≤ stop, and for pointCount = 1
is exactly `[start]`. -/
theorem claim_C2 (s e : ℚ) (n : Nat) (h : 1 ≤ n) :
    (linspace s e n).length = n ∧
    (linspace s e n).head? = some s ∧
    (2 ≤ n → (linspace s e n).getLast? = some e) ∧
    (n = 1 → linspace s e n = [s]) ∧
    (s ≤ e → (linspace s e n).Sorted (· ≤ ·)) :=
  ⟨linspace_length s e n, linspace_head s e n (by omega),
   fun h2 => linspace_getLast s e n h2,
   fun h1 => by simp [linspace, h1],
   fun hse => linspace_sorted s e n hse⟩

/-- Witness for C2: the sweep from 0 to 1 in 3 points. -/
theorem claim_C2_witness :
    1 ≤ 3 ∧
    ((linspace 0 1 3).length = 3 ∧
     (linspace 0 1 3).head? = some 0 ∧
     (2 ≤ 3 → (linspace 0 1 3).getLast? = some 1) ∧
     (3 = 1 → linspace 0 1 3 = [0]) ∧
     ((0 : ℚ) ≤ 1 → (linspace 0 1 3).Sorted (· ≤ ·))) :=
  ⟨by omega, claim_C2 0 1 3 (by omega)⟩

/-- C7: the plot finalizer selects the layout solely from the
dependent-column count: 2 dependents give the side-by-side pair, 3 the
vertical triple, 4 the 2-by-2 grid, and any other count falls back to
one plot per dependent column. -/
theorem claim_C7 :
    createPlotsLayout 2 = PlotLayout.sideBySidePair ∧
    createPlotsLayout 3 = PlotLayout.verticalTriple ∧
    createPlotsLayout 4 = PlotLayout.grid2x2 ∧
    ∀ n : Nat, n ≠ 2 → n ≠ 3 → n ≠ 4 → createPlotsLayout n = PlotLayout.onePerColumn := by
  refine ⟨rfl, rfl, rfl, fun n h2 h3 h4 => ?_⟩
  simp [createPlotsLayout, h2, h3, h4]

/-- Witness for C7: the fallback at the counts 0, 1, 5 and 6. -/
theorem claim_C7_witness :
    createPlotsLayout 0 = PlotLayout.onePerColumn ∧
    createPlotsLayout 1 = PlotLayout.onePerColumn ∧
    createPlotsLayout 5 = PlotLayout.onePerColumn ∧
    createPlotsLayout 6 = PlotLayout.onePerColumn :=
  ⟨claim_C7.2.2.2 0 (by decide) (by decide) (by decide),
   claim_C7.2.2.2 1 (by decide) (by decide) (by decide),
   claim_C7.2.2.2 5 (by decide) (by decide) (by decide),
   claim_C7.2.2.2 6 (by decide) (by decide) (by decide)⟩

theorem pollLoop_spec : ∀ (fs : List Bool) (first : Bool) (u : Nat),
    pollLoop first fs = some u →
    (first :: fs.take u).getLast? = some true ∧
    (first :: fs.take u).countP (fun b => !b) ≤ u := by
  intro fs
  induction fs with
  | nil =>
    intro first u h
    cases first with
    | true =>
      have hu : u = 0 := by simpa [pollLoop] using h.symm
      subst hu
      simp
    | false => simp [pollLoop] at h
  | cons f fs ih =>
    intro first u h
    cases first with
    | true =>
      have hu : u = 0 := by simpa [pollLoop] using h.symm
      subst hu
      simp
    | false =>
      simp only [pollLoop, Option.map_eq_some'] at h
      obtain ⟨u', hu', rfl⟩ := h
      obtain ⟨hlast, hcount⟩ := ih f u' hu'
      constructor
      · simpa [List.getLast?_cons_cons] using hlast
      · have h1 : (false :: (f :: fs).take (u' + 1)).countP (fun b => !b)
            = (f :: fs.take u').countP (fun b => !b) + 1 := by
          simp [List.countP_cons, List.take_succ_cons]
        omega

/-- C6: if successive fetches of the watched dataset report the
completion flag, `liveplot` returns (with `u` trace updates) only when
the last fetched flag observed is true, and the trace-update path ran
at least once for every fetch that reported false. -/
theorem claim_C6 (first : Bool) (fs : List Bool) (u : Nat)
    (h : liveplotRun (first :: fs) = some u) :
    (first :: fs.take u).getLast? = some true ∧
    (first :: fs.take u).countP (fun b => !b) ≤ u :=
  pollLoop_spec fs first u h

/-- Witness for C6: two incomplete fetches followed by a complete one
give exactly two plot updates. -/
theorem claim_C6_witness :
    liveplotRun [false, false, true] = some 2 ∧
    ((false :: [false, true].take 2).getLast? = some true ∧
     (false :: [false, true].take 2).countP (fun b => !b) ≤ 2) :=
  ⟨by decide, claim_C6 false [false, true] 2 (by decide)⟩

/-- C8: when `addICT` is called with an `ICTnumber` that is not a tuple
of length 2, or an `ICTcentre` that is not a tuple of length 4, an
`Unlawful input` message is reported and the stored mapping gains no
entry for that input. -/
theorem claim_C8 (d : List (PyVal × ICTEntry)) (num centre : PyVal)
    (h : isTupOfLen 2 num = false ∨ isTupOfLen 4 centre = false) :
    (addICT d num centre).1 = d ∧
    (ICTMsg.unlawfulNumber ∈ (addICT d num centre).2 ∨
     ICTMsg.unlawfulCentre ∈ (addICT d num centre).2) := by
  cases num with
  | nontup => simp [addICT]
  | tup ns =>
    by_cases h2 : ns.length = 2
    · cases centre with
      | nontup => simp [addICT, h2]
      | tup cs =>
        by_cases h4 : cs.length = 4
        · exfalso
          rcases h with h | h <;> simp [isTupOfLen, h2, h4] at h
        · simp [addICT, h2, h4]
    · simp [addICT, h2]

/-- Witness for C8: a length-1 `ICTnumber` tuple leaves the (empty)
mapping untouched and reports the malformed input. -/
theorem claim_C8_witness :
    isTupOfLen 2 (PyVal.tup [5]) = false ∧
    ((addICT [] (PyVal.tup [5]) (PyVal.tup [1, 2, 3, 4])).1 = [] ∧
     (ICTMsg.unlawfulNumber ∈ (addICT [] (PyVal.tup [5]) (PyVal.tup [1, 2, 3, 4])).2 ∨
      ICTMsg.unlawfulCentre ∈ (addICT [] (PyVal.tup [5]) (PyVal.tup [1, 2, 3, 4])).2)) :=
  ⟨by decide, claim_C8 [] (PyVal.tup [5]) (PyVal.tup [1, 2, 3, 4]) (Or.inl (by decide))⟩

theorem mFor_ok {E Ev' α : Type} (f : α → MGen E Ev' Unit) (g : α → List Ev')
    (hf : ∀ x, f x none = (none, g x, Except.ok ())) :
    ∀ xs : List α, mFor xs f none = (none, (xs.map g).flatten, Except.ok ()) := by
  intro xs
  induction xs with
  | nil => simp [mFor, MGen.pure]
  | cons x rest ih => simp [mFor, MGen.bind, hf, ih]

theorem flatten_map_singleton {γ δ : Type} (f : γ → δ) (xs : List γ) :
    (xs.map (fun x => [f x])).flatten = xs.map f := by
  induction xs with
  | nil => rfl
  | cons x rest ih => simp [ih]

theorem emitsOnly_pure {E Ev' α : Type} (p : Ev' → Bool) (a : α) :
    emitsOnly p (@MGen.pure E Ev' α a) := by
  intro o e he
  simp [MGen.pure] at he

theorem emitsOnly_prim {E Ev' : Type} (p : Ev' → Bool) (ev : Ev') (h : p ev = true) :
    emitsOnly p (prim (E := E) ev) := by
  intro o e he
  rcases o with _ | ⟨n, k⟩
  · simp [prim] at he
    subst he
    exact h
  · rcases n with _ | n
    · simp [prim] at he
    · simp [prim] at he
      subst he
      exact h

theorem emitsOnly_emit {E Ev' : Type} (p : Ev' → Bool) (ev : Ev') (h : p ev = true) :
    emitsOnly p (emit (E := E) ev) := by
  intro o e he
  simp [emit] at he
  subst he
  exact h

theorem emitsOnly_bind {E Ev' α β : Type} {p : Ev' → Bool}
    {m : MGen E Ev' α} {f : α → MGen E Ev' β}
    (hm : emitsOnly p m) (hf : ∀ a, emitsOnly p (f a)) :
    emitsOnly p (MGen.bind m f) := by
  intro o e he
  have hmo := hm o
  rcases hr : m o with ⟨o', tr, r⟩
  rw [hr] at hmo
  cases r with
  | ok a =>
    have hfo := hf a o'
    simp only [MGen.bind, hr, List.mem_append] at he
    rcases he with he | he
    · exact hmo e he
    · exact hfo e he
  | error err =>
    simp only [MGen.bind, hr] at he
    exact hmo e he

theorem emitsOnly_mFor {E Ev' α : Type} {p : Ev' → Bool} {f : α → MGen E Ev' Unit} :
    ∀ xs : List α, (∀ x ∈ xs, emitsOnly p (f x)) → emitsOnly p (mFor xs f) := by
  intro xs
  induction xs with
  | nil =>
    intro _ o e he
    simp [mFor, MGen.pure] at he
  | cons x rest ih =>
    intro hall
    exact emitsOnly_bind (hall x (by simp))
      (fun _ => ih (fun y hy => hall y (by simp [hy])))

theorem emitsOnly_processParamsMeas (p : Ev → Bool)
    (hget : ∀ pid, p (Ev.getParam pid) = true)
    (hcall : ∀ t, p (Ev.callFn t) = true) :
    ∀ pm : List PMeas, emitsOnly p (processParamsMeas pm) := by
  intro pm
  induction pm with
  | nil => exact emitsOnly_pure p []
  | cons x rest ih =>
    cases x with
    | readable pid v =>
      exact emitsOnly_bind (emitsOnly_prim p _ (hget pid))
        (fun _ => emitsOnly_bind ih (fun out => emitsOnly_pure p _))
    | callF t =>
      exact emitsOnly_bind (emitsOnly_prim p _ (hcall t)) (fun _ => ih)

theorem emitsOnly_do1dStep (a : SweepArgs) (pm : List PMeas) (bi ai : Nat) (sp : ℚ) :
    emitsOnly isLoopEv (do1dStep a pm bi ai sp) := by
  refine emitsOnly_bind ?_ (fun _ => emitsOnly_bind ?_ (fun _ =>
    emitsOnly_bind ?_ (fun pairs => emitsOnly_bind ?_ (fun _ => ?_))))
  · exact emitsOnly_mFor _ (fun i _ => emitsOnly_prim _ _ rfl)
  · exact emitsOnly_prim _ _ rfl
  · exact emitsOnly_processParamsMeas _ (fun _ => rfl) (fun _ => rfl) pm
  · exact emitsOnly_prim _ _ rfl
  · exact emitsOnly_mFor _ (fun i _ => emitsOnly_prim _ _ rfl)

theorem emitsOnly_do1dLoop (a : SweepArgs) (pm : List PMeas) (bi ai : Nat) :
    emitsOnly isLoopEv
      (mFor (linspace a.start a.stop a.numPoints) (do1dStep a pm bi ai)) :=
  emitsOnly_mFor _ (fun sp _ => emitsOnly_do1dStep a pm bi ai sp)

theorem emitsOnly_do2dInnerStep (a1 a2 : SweepArgs) (pm : List PMeas) (sbs : Bool)
    (sp1 sp2 : ℚ) : emitsOnly isLoopEv (do2dInnerStep a1 a2 pm sbs sp1 sp2) := by
  refine emitsOnly_bind ?_ (fun _ => emitsOnly_bind ?_ (fun pairs => ?_))
  · split
    · exact emitsOnly_pure _ _
    · exact emitsOnly_prim _ _ rfl
  · exact emitsOnly_processParamsMeas _ (fun _ => rfl) (fun _ => rfl) pm
  · exact emitsOnly_prim _ _ rfl

theorem emitsOnly_do2dOuterStep (a1 a2 : SweepArgs) (pm : List PMeas) (bi ai : Nat)
    (sbs flush : Bool) (sp1 : ℚ) :
    emitsOnly isLoopEv (do2dOuterStep a1 a2 pm bi ai sbs flush sp1) := by
  refine emitsOnly_bind ?_ (fun _ => emitsOnly_bind ?_ (fun _ =>
    emitsOnly_bind ?_ (fun _ => emitsOnly_bind ?_ (fun _ =>
      emitsOnly_bind ?_ (fun _ => ?_)))))
  · split
    · exact emitsOnly_prim _ _ rfl
    · exact emitsOnly_pure _ _
  · exact emitsOnly_prim _ _ rfl
  · exact emitsOnly_mFor _ (fun i _ => emitsOnly_prim _ _ rfl)
  · exact emitsOnly_mFor _ (fun sp2 _ => emitsOnly_do2dInnerStep a1 a2 pm sbs sp1 sp2)
  · exact emitsOnly_mFor _ (fun i _ => emitsOnly_prim _ _ rfl)
  · split
    · exact emitsOnly_emit _ _ rfl
    · exact emitsOnly_pure _ _

theorem emitsOnly_do2dLoop (a1 a2 : SweepArgs) (pm : List PMeas) (bi ai : Nat)
    (sbs flush : Bool) :
    emitsOnly isLoopEv
      (mFor (linspace a1.start a1.stop a1.numPoints)
        (do2dOuterStep a1 a2 pm bi ai sbs flush)) :=
  emitsOnly_mFor _ (fun sp1 _ => emitsOnly_do2dOuterStep a1 a2 pm bi ai sbs flush sp1)

theorem isLoopEv_not_exit (e : Ev) (h : isLoopEv e = true) : isExitAct e = false := by
  cases e <;> simp_all [isLoopEv, isExitAct] <;> omega

theorem isLoopEv_not_postDelay (pid : Nat) (e : Ev) (h : isLoopEv e = true) :
    isPostDelayOf pid e = false := by
  cases e
  all_goals simp_all [isLoopEv, isPostDelayOf]

theorem do1d_run_ok (a : SweepArgs) (pm : List PMeas) (en ex bi ai : Nat) (dp : Bool)
    (o o1 : Oracle EKind) (tr : List Ev)
    (h : mFor (linspace a.start a.stop a.numPoints) (do1dStep a pm bi ai) o
      = (o1, tr, Except.ok ())) :
    do1d a pm en ex bi ai dp o =
      (o1, Ev.postDelaySet a.pid a.delay ::
        (enterTrace en ++ (tr ++ (exitTrace ex ++
          Ev.finalizeRec :: Ev.handlePlot :: plotTail dp))), Except.ok ()) := by
  simp [do1d, MGen.bind, emit, catchKeyboardInterrupts, measRun, handlePlotting, h]

theorem do1d_run_ki (a : SweepArgs) (pm : List PMeas) (en ex bi ai : Nat) (dp : Bool)
    (o o1 : Oracle EKind) (tr : List Ev)
    (h : mFor (linspace a.start a.stop a.numPoints) (do1dStep a pm bi ai) o
      = (o1, tr, Except.error EKind.ki)) :
    do1d a pm en ex bi ai dp o =
      (o1, Ev.postDelaySet a.pid a.delay ::
        (enterTrace en ++ (tr ++ (exitTrace ex ++
          Ev.finalizeRec :: Ev.handlePlot :: plotTail dp))), Except.error EKind.ki) := by
  simp [do1d, MGen.bind, emit, catchKeyboardInterrupts, measRun, handlePlotting, h]

theorem do1d_run_err (a : SweepArgs) (pm : List PMeas) (en ex bi ai : Nat) (dp : Bool)
    (o o1 : Oracle EKind) (tr : List Ev)
    (h : mFor (linspace a.start a.stop a.numPoints) (do1dStep a pm bi ai) o
      = (o1, tr, Except.error EKind.err)) :
    do1d a pm en ex bi ai dp o =
      (o1, Ev.postDelaySet a.pid a.delay ::
        (enterTrace en ++ (tr ++ (exitTrace ex ++ [Ev.finalizeRec]))),
        Except.error EKind.err) := by
  simp [do1d, MGen.bind, emit, catchKeyboardInterrupts, measRun, handlePlotting, h]

theorem do2d_run_ok (a1 a2 : SweepArgs) (pm : List PMeas) (en ex bi ai : Nat)
    (sbs flush dp : Bool) (o o1 : Oracle EKind) (tr : List Ev)
    (h : mFor (linspace a1.start a1.stop a1.numPoints)
        (do2dOuterStep a1 a2 pm bi ai sbs flush) o = (o1, tr, Except.ok ())) :
    do2d a1 a2 pm en ex bi ai sbs flush dp o =
      (o1, Ev.postDelaySet a1.pid a1.delay :: Ev.postDelaySet a2.pid a2.delay ::
        (enterTrace en ++ (tr ++ (exitTrace ex ++
          Ev.finalizeRec :: Ev.handlePlot :: plotTail dp))), Except.ok ()) := by
  simp [do2d, MGen.bind, emit, catchKeyboardInterrupts, measRun, handlePlotting, h]

theorem do2d_run_ki (a1 a2 : SweepArgs) (pm : List PMeas) (en ex bi ai : Nat)
    (sbs flush dp : Bool) (o o1 : Oracle EKind) (tr : List Ev)
    (h : mFor (linspace a1.start a1.stop a1.numPoints)
        (do2dOuterStep a1 a2 pm bi ai sbs flush) o = (o1, tr, Except.error EKind.ki)) :
    do2d a1 a2 pm en ex bi ai sbs flush dp o =
      (o1, Ev.postDelaySet a1.pid a1.delay :: Ev.postDelaySet a2.pid a2.delay ::
        (enterTrace en ++ (tr ++ (exitTrace ex ++
          Ev.finalizeRec :: Ev.handlePlot :: plotTail dp))), Except.error EKind.ki) := by
  simp [do2d, MGen.bind, emit, catchKeyboardInterrupts, measRun, handlePlotting, h]

theorem do2d_run_err (a1 a2 : SweepArgs) (pm : List PMeas) (en ex bi ai : Nat)
    (sbs flush dp : Bool) (o o1 : Oracle EKind) (tr : List Ev)
    (h : mFor (linspace a1.start a1.stop a1.numPoints)
        (do2dOuterStep a1 a2 pm bi ai sbs flush) o = (o1, tr, Except.error EKind.err)) :
    do2d a1 a2 pm en ex bi ai sbs flush dp o =
      (o1, Ev.postDelaySet a1.pid a1.delay :: Ev.postDelaySet a2.pid a2.delay ::
        (enterTrace en ++ (tr ++ (exitTrace ex ++ [Ev.finalizeRec]))),
        Except.error EKind.err) := by
  simp [do2d, MGen.bind, emit, catchKeyboardInterrupts, measRun, handlePlotting, h]

theorem processParamsMeas_none : ∀ pm : List PMeas,
    processParamsMeas pm none = (none, pmTrace pm, Except.ok (measPairs pm)) := by
  intro pm
  induction pm with
  | nil => rfl
  | cons x rest ih =>
    cases x with
    | readable pid v =>
      simp [processParamsMeas, MGen.bind, MGen.pure, prim, ih, pmTrace, measPairs]
    | callF t =>
      simp [processParamsMeas, MGen.bind, MGen.pure, prim, ih, pmTrace, measPairs]

theorem actionFor_none (k : Nat) (n : Nat) :
    mFor (List.range n) (fun i => prim (E := EKind) (Ev.runAction k i)) none
      = (none, (List.range n).map (fun i => Ev.runAction k i), Except.ok ()) := by
  rw [mFor_ok (fun i => prim (Ev.runAction k i)) (fun i => [Ev.runAction k i])
    (fun i => rfl), flatten_map_singleton]

theorem do1dStep_none (a : SweepArgs) (pm : List PMeas) (bi ai : Nat) (sp : ℚ) :
    do1dStep a pm bi ai sp none = (none, stepTrace a pm bi ai sp, Except.ok ()) := by
  simp [do1dStep, MGen.bind, prim, actionFor_none, processParamsMeas_none, stepTrace]

theorem do1dLoop_none (a : SweepArgs) (pm : List PMeas) (bi ai : Nat) :
    mFor (linspace a.start a.stop a.numPoints) (do1dStep a pm bi ai) none
      = (none, ((linspace a.start a.stop a.numPoints).map (stepTrace a pm bi ai)).flatten,
        Except.ok ()) :=
  mFor_ok _ _ (do1dStep_none a pm bi ai) _

theorem do2dInnerStep_none (a1 a2 : SweepArgs) (pm : List PMeas) (sbs : Bool)
    (sp1 sp2 : ℚ) :
    do2dInnerStep a1 a2 pm sbs sp1 sp2 none
      = (none, inner2Trace a1 a2 pm sbs sp1 sp2, Except.ok ()) := by
  by_cases h : sp2 = a2.start ∧ sbs = true
  · simp [do2dInnerStep, inner2Trace, h, MGen.bind, MGen.pure, prim, processParamsMeas_none]
  · simp [do2dInnerStep, inner2Trace, h, MGen.bind, MGen.pure, prim, processParamsMeas_none]

theorem do2dOuterStep_none (a1 a2 : SweepArgs) (pm : List PMeas) (bi ai : Nat)
    (sbs flush : Bool) (sp1 : ℚ) :
    do2dOuterStep a1 a2 pm bi ai sbs flush sp1 none
      = (none, outer2Trace a1 a2 pm bi ai sbs flush sp1, Except.ok ()) := by
  have hin : mFor (linspace a2.start a2.stop a2.numPoints)
      (do2dInnerStep a1 a2 pm sbs sp1) none
      = (none, ((linspace a2.start a2.stop a2.numPoints).map
          (inner2Trace a1 a2 pm sbs sp1)).flatten, Except.ok ()) :=
    mFor_ok _ _ (do2dInnerStep_none a1 a2 pm sbs sp1) _
  cases sbs
  all_goals cases flush
  all_goals simp [do2dOuterStep, outer2Trace, MGen.bind, MGen.pure, prim, emit,
    actionFor_none, hin]

theorem do2dLoop_none (a1 a2 : SweepArgs) (pm : List PMeas) (bi ai : Nat)
    (sbs flush : Bool) :
    mFor (linspace a1.start a1.stop a1.numPoints)
      (do2dOuterStep a1 a2 pm bi ai sbs flush) none
      = (none, ((linspace a1.start a1.stop a1.numPoints).map
          (outer2Trace a1 a2 pm bi ai sbs flush)).flatten, Except.ok ()) :=
  mFor_ok _ _ (do2dOuterStep_none a1 a2 pm bi ai sbs flush) _

theorem countP_zero_of_loopEv_exit (tr : List Ev) (h : ∀ e ∈ tr, isLoopEv e = true) :
    tr.countP isExitAct = 0 := by
  rw [List.countP_eq_zero]
  intro e he
  simp [isLoopEv_not_exit e (h e he)]

theorem countP_exit_actionMap (k n : Nat) (hk : k ≠ 1) :
    ((List.range n).map (fun i => Ev.runAction k i)).countP isExitAct = 0 := by
  rw [List.countP_eq_zero]
  intro e he
  simp only [List.mem_map] at he
  obtain ⟨i, _, rfl⟩ := he
  simp [isExitAct, hk]

theorem countP_exit_exitTrace (ex : Nat) : (exitTrace ex).countP isExitAct = ex := by
  have h : (exitTrace ex).countP isExitAct = (exitTrace ex).length := by
    rw [List.countP_eq_length]
    intro e he
    simp only [exitTrace, List.mem_map] at he
    obtain ⟨i, _, rfl⟩ := he
    rfl
  rw [h]
  simp [exitTrace]

theorem countP_exit_finTail (dp : Bool) :
    (Ev.finalizeRec :: Ev.handlePlot :: plotTail dp).countP isExitAct = 0 := by
  cases dp
  all_goals simp [plotTail, isExitAct, List.countP_cons]

/-- C4: for every 1D or 2D sweep and every exception schedule (no
exception, a KeyboardInterrupt or a runtime error raised at any point
of the sweep loop), the emitted trace contains the registered
exit-action block exactly once — it appears as one contiguous block,
and no exit-action event occurs anywhere else in the trace. -/
theorem claim_C4 (a a1 a2 : SweepArgs) (pm pm2 : List PMeas) (en ex bi ai : Nat)
    (dp dp2 sbs flush : Bool) (o o2 : Oracle EKind) :
    (∃ pre post, traceOf (do1d a pm en ex bi ai dp) o = pre ++ exitTrace ex ++ post ∧
      pre.countP isExitAct = 0 ∧ post.countP isExitAct = 0) ∧
    (∃ pre post, traceOf (do2d a1 a2 pm2 en ex bi ai sbs flush dp2) o2
        = pre ++ exitTrace ex ++ post ∧
      pre.countP isExitAct = 0 ∧ post.countP isExitAct = 0) := by
  constructor
  · rcases h : mFor (linspace a.start a.stop a.numPoints) (do1dStep a pm bi ai) o
      with ⟨o1, tr, r⟩
    have htr : tr.countP isExitAct = 0 := by
      apply countP_zero_of_loopEv_exit
      intro e he
      have hl := emitsOnly_do1dLoop a pm bi ai o
      rw [h] at hl
      exact hl e he
    have hpre : (Ev.postDelaySet a.pid a.delay :: (enterTrace en ++ tr)).countP isExitAct
        = 0 := by
      simp [List.countP_cons, List.countP_append, htr, isExitAct, enterTrace,
        countP_exit_actionMap 0 en (by omega)]
    cases r with
    | ok u =>
      cases u
      refine ⟨Ev.postDelaySet a.pid a.delay :: (enterTrace en ++ tr),
        Ev.finalizeRec :: Ev.handlePlot :: plotTail dp, ?_, hpre, countP_exit_finTail dp⟩
      rw [traceOf, do1d_run_ok a pm en ex bi ai dp _ _ _ h]
      simp
    | error k =>
      cases k with
      | ki =>
        refine ⟨Ev.postDelaySet a.pid a.delay :: (enterTrace en ++ tr),
          Ev.finalizeRec :: Ev.handlePlot :: plotTail dp, ?_, hpre, countP_exit_finTail dp⟩
        rw [traceOf, do1d_run_ki a pm en ex bi ai dp _ _ _ h]
        simp
      | err =>
        refine ⟨Ev.postDelaySet a.pid a.delay :: (enterTrace en ++ tr),
          [Ev.finalizeRec], ?_, hpre, by simp [isExitAct]⟩
        rw [traceOf, do1d_run_err a pm en ex bi ai dp _ _ _ h]
        simp
  · rcases h : mFor (linspace a1.start a1.stop a1.numPoints)
      (do2dOuterStep a1 a2 pm2 bi ai sbs flush) o2 with ⟨o1, tr, r⟩
    have htr : tr.countP isExitAct = 0 := by
      apply countP_zero_of_loopEv_exit
      intro e he
      have hl := emitsOnly_do2dLoop a1 a2 pm2 bi ai sbs flush o2
      rw [h] at hl
      exact hl e he
    have hpre : (Ev.postDelaySet a1.pid a1.delay :: Ev.postDelaySet a2.pid a2.delay ::
        (enterTrace en ++ tr)).countP isExitAct = 0 := by
      simp [List.countP_cons, List.countP_append, htr, isExitAct, enterTrace,
        countP_exit_actionMap 0 en (by omega)]
    cases r with
    | ok u =>
      cases u
      refine ⟨Ev.postDelaySet a1.pid a1.delay :: Ev.postDelaySet a2.pid a2.delay ::
        (enterTrace en ++ tr),
        Ev.finalizeRec :: Ev.handlePlot :: plotTail dp2, ?_, hpre, countP_exit_finTail dp2⟩
      rw [traceOf, do2d_run_ok a1 a2 pm2 en ex bi ai sbs flush dp2 _ _ _ h]
      simp
    | error k =>
      cases k with
      | ki =>
        refine ⟨Ev.postDelaySet a1.pid a1.delay :: Ev.postDelaySet a2.pid a2.delay ::
          (enterTrace en ++ tr),
          Ev.finalizeRec :: Ev.handlePlot :: plotTail dp2, ?_, hpre, countP_exit_finTail dp2⟩
        rw [traceOf, do2d_run_ki a1 a2 pm2 en ex bi ai sbs flush dp2 _ _ _ h]
        simp
      | err =>
        refine ⟨Ev.postDelaySet a1.pid a1.delay :: Ev.postDelaySet a2.pid a2.delay ::
          (enterTrace en ++ tr), [Ev.finalizeRec], ?_, hpre, by simp [isExitAct]⟩
        rw [traceOf, do2d_run_err a1 a2 pm2 en ex bi ai sbs flush dp2 _ _ _ h]
        simp

/-- C3: if a KeyboardInterrupt scheduled during the sweep loop of
`do1d` or `do2d` is observed by the caller (the run's outcome is the
re-raised interrupt), then the trace shows that the interrupt was first
caught: the registered exit actions ran, the recorder was finalized and
the plotting handler ran — in that order, before the interrupt was
re-raised as the final outcome. -/
theorem claim_C3 (a a1 a2 : SweepArgs) (pm pm2 : List PMeas) (en ex bi ai : Nat)
    (dp dp2 sbs flush : Bool) (j1 j2 : Nat) :
    (resultOf (do1d a pm en ex bi ai dp) (some (j1, EKind.ki)) = Except.error EKind.ki →
      ∃ pre, traceOf (do1d a pm en ex bi ai dp) (some (j1, EKind.ki))
        = pre ++ exitTrace ex ++ Ev.finalizeRec :: Ev.handlePlot :: plotTail dp) ∧
    (resultOf (do2d a1 a2 pm2 en ex bi ai sbs flush dp2) (some (j2, EKind.ki))
        = Except.error EKind.ki →
      ∃ pre, traceOf (do2d a1 a2 pm2 en ex bi ai sbs flush dp2) (some (j2, EKind.ki))
        = pre ++ exitTrace ex ++ Ev.finalizeRec :: Ev.handlePlot :: plotTail dp2) := by
  constructor
  · intro hres
    rcases h : mFor (linspace a.start a.stop a.numPoints) (do1dStep a pm bi ai)
      (some (j1, EKind.ki)) with ⟨o1, tr, r⟩
    cases r with
    | ok u =>
      cases u
      rw [resultOf, do1d_run_ok a pm en ex bi ai dp _ _ _ h] at hres
      simp at hres
    | error k =>
      cases k with
      | ki =>
        refine ⟨Ev.postDelaySet a.pid a.delay :: (enterTrace en ++ tr), ?_⟩
        rw [traceOf, do1d_run_ki a pm en ex bi ai dp _ _ _ h]
        simp
      | err =>
        rw [resultOf, do1d_run_err a pm en ex bi ai dp _ _ _ h] at hres
        simp at hres
  · intro hres
    rcases h : mFor (linspace a1.start a1.stop a1.numPoints)
      (do2dOuterStep a1 a2 pm2 bi ai sbs flush) (some (j2, EKind.ki)) with ⟨o1, tr, r⟩
    cases r with
    | ok u =>
      cases u
      rw [resultOf, do2d_run_ok a1 a2 pm2 en ex bi ai sbs flush dp2 _ _ _ h] at hres
      simp at hres
    | error k =>
      cases k with
      | ki =>
        refine ⟨Ev.postDelaySet a1.pid a1.delay :: Ev.postDelaySet a2.pid a2.delay ::
          (enterTrace en ++ tr), ?_⟩
        rw [traceOf, do2d_run_ki a1 a2 pm2 en ex bi ai sbs flush dp2 _ _ _ h]
        simp
      | err =>
        rw [resultOf, do2d_run_err a1 a2 pm2 en ex bi ai sbs flush dp2 _ _ _ h] at hres
        simp at hres

/-- Witness for C3: interrupting the very first inner `set()` of a tiny
`do1d` run and of a tiny `do2d` run. -/
theorem claim_C3_witness :
    ((∃ pre, traceOf (do1d ⟨0, 0, 1, 2, 0⟩ [] 0 0 0 0 true) (some (0, EKind.ki))
      = pre ++ exitTrace 0 ++ Ev.finalizeRec :: Ev.handlePlot :: plotTail true) ∧
     (∃ pre, traceOf (do2d ⟨0, 0, 1, 2, 0⟩ ⟨1, 0, 1, 2, 0⟩ [] 0 0 0 0 true false true)
        (some (0, EKind.ki))
      = pre ++ exitTrace 0 ++ Ev.finalizeRec :: Ev.handlePlot :: plotTail true)) :=
  ⟨(claim_C3 ⟨0, 0, 1, 2, 0⟩ ⟨0, 0, 1, 2, 0⟩ ⟨1, 0, 1, 2, 0⟩ [] [] 0 0 0 0
      true true true false 0 0).1 rfl,
   (claim_C3 ⟨0, 0, 1, 2, 0⟩ ⟨0, 0, 1, 2, 0⟩ ⟨1, 0, 1, 2, 0⟩ [] [] 0 0 0 0
      true true true false 0 0).2 rfl⟩

theorem postDelayAfter_of_no_postDelay (pid : Nat) :
    ∀ (tr : List Ev) (init : ℚ), (∀ e ∈ tr, isPostDelayOf pid e = false) →
      postDelayAfter pid init tr = init := by
  intro tr
  induction tr with
  | nil => intro init _; rfl
  | cons e rest ih =>
    intro init h
    have he := h e (List.mem_cons_self e rest)
    have hrest := fun x hx => h x (List.mem_cons_of_mem e hx)
    cases e with
    | postDelaySet p d =>
      have hp : ¬ p = pid := by simpa [isPostDelayOf] using he
      simp only [postDelayAfter, if_neg hp]
      exact ih _ hrest
    | setParam p v => exact ih _ hrest
    | getParam p => exact ih _ hrest
    | callFn t => exact ih _ hrest
    | runAction k i => exact ih _ hrest
    | addRow row => exact ih _ hrest
    | flushData => exact ih _ hrest
    | finalizeRec => exact ih _ hrest
    | handlePlot => exact ih _ hrest
    | createPlots => exact ih _ hrest

theorem no_postDelay_actionMap (pid k n : Nat) :
    ∀ e ∈ (List.range n).map (fun i => Ev.runAction k i), isPostDelayOf pid e = false := by
  intro e he
  simp only [List.mem_map] at he
  obtain ⟨i, _, rfl⟩ := he
  rfl

theorem no_postDelay_finTail (pid : Nat) (dp : Bool) :
    ∀ e ∈ Ev.finalizeRec :: Ev.handlePlot :: plotTail dp, isPostDelayOf pid e = false := by
  intro e he
  cases dp
  · simp [plotTail] at he
    rcases he with rfl | rfl
    · rfl
    · rfl
  · simp [plotTail] at he
    rcases he with rfl | rfl | rfl
    · rfl
    · rfl
    · rfl

theorem postDelayAfter_body (pid : Nat) (c : ℚ) (en ex : Nat) (tr tail : List Ev)
    (htr : ∀ e ∈ tr, isPostDelayOf pid e = false)
    (htail : ∀ e ∈ tail, isPostDelayOf pid e = false) :
    postDelayAfter pid c (enterTrace en ++ (tr ++ (exitTrace ex ++ tail))) = c := by
  apply postDelayAfter_of_no_postDelay
  intro e he
  simp only [List.mem_append] at he
  rcases he with he | he | he | he
  · exact no_postDelay_actionMap pid 0 en e (by simpa [enterTrace] using he)
  · exact htr e he
  · exact no_postDelay_actionMap pid 1 ex e (by simpa [exitTrace] using he)
  · exact htail e he

theorem no_postDelay_fin (pid : Nat) :
    ∀ e ∈ [Ev.finalizeRec], isPostDelayOf pid e = false := by
  intro e he
  simp at he
  subst he
  rfl

/-- C10: `do1d` assigns its delay argument to the swept parameter's
`post_delay` attribute (and `do2d` assigns `delay1` and `delay2` to the
outer and inner parameters) before sweeping, and nothing later in the
run restores the previous value: under every exception schedule —
normal completion, interruption, or a runtime error — the parameter's
`post_delay` after the run equals the delay argument, whatever it was
before the call. -/
theorem claim_C10 (a a1 a2 : SweepArgs) (pm pm2 : List PMeas)
    (en ex bi ai en2 ex2 bi2 ai2 : Nat) (dp dp2 sbs flush : Bool)
    (o o2 : Oracle EKind) (init init1 init2 : ℚ)
    (hpid : a1.pid ≠ a2.pid) :
    postDelayAfter a.pid init (traceOf (do1d a pm en ex bi ai dp) o) = a.delay ∧
    postDelayAfter a1.pid init1
      (traceOf (do2d a1 a2 pm2 en2 ex2 bi2 ai2 sbs flush dp2) o2) = a1.delay ∧
    postDelayAfter a2.pid init2
      (traceOf (do2d a1 a2 pm2 en2 ex2 bi2 ai2 sbs flush dp2) o2) = a2.delay := by
  refine ⟨?_, ?_, ?_⟩
  · rcases h : mFor (linspace a.start a.stop a.numPoints) (do1dStep a pm bi ai) o
      with ⟨o1, tr, r⟩
    have htr : ∀ e ∈ tr, isPostDelayOf a.pid e = false := by
      intro e he
      refine isLoopEv_not_postDelay _ e ?_
      have hl := emitsOnly_do1dLoop a pm bi ai o
      rw [h] at hl
      exact hl e he
    cases r with
    | ok u =>
      cases u
      rw [traceOf, do1d_run_ok a pm en ex bi ai dp _ _ _ h]
      simp only [postDelayAfter, if_pos rfl]
      exact postDelayAfter_body _ _ _ _ _ _ htr (no_postDelay_finTail a.pid dp)
    | error k =>
      cases k with
      | ki =>
        rw [traceOf, do1d_run_ki a pm en ex bi ai dp _ _ _ h]
        simp only [postDelayAfter, if_pos rfl]
        exact postDelayAfter_body _ _ _ _ _ _ htr (no_postDelay_finTail a.pid dp)
      | err =>
        rw [traceOf, do1d_run_err a pm en ex bi ai dp _ _ _ h]
        simp only [postDelayAfter, if_pos rfl]
        exact postDelayAfter_body _ _ _ _ _ _ htr (no_postDelay_fin a.pid)
  · rcases h : mFor (linspace a1.start a1.stop a1.numPoints)
      (do2dOuterStep a1 a2 pm2 bi2 ai2 sbs flush) o2 with ⟨o1, tr, r⟩
    have htr : ∀ e ∈ tr, isPostDelayOf a1.pid e = false := by
      intro e he
      refine isLoopEv_not_postDelay _ e ?_
      have hl := emitsOnly_do2dLoop a1 a2 pm2 bi2 ai2 sbs flush o2
      rw [h] at hl
      exact hl e he
    have hne : ¬ a2.pid = a1.pid := fun hh => hpid hh.symm
    cases r with
    | ok u =>
      cases u
      rw [traceOf, do2d_run_ok a1 a2 pm2 en2 ex2 bi2 ai2 sbs flush dp2 _ _ _ h]
      simp only [postDelayAfter, if_pos rfl, if_neg hne]
      exact postDelayAfter_body _ _ _ _ _ _ htr (no_postDelay_finTail a1.pid dp2)
    | error k =>
      cases k with
      | ki =>
        rw [traceOf, do2d_run_ki a1 a2 pm2 en2 ex2 bi2 ai2 sbs flush dp2 _ _ _ h]
        simp only [postDelayAfter, if_pos rfl, if_neg hne]
        exact postDelayAfter_body _ _ _ _ _ _ htr (no_postDelay_finTail a1.pid dp2)
      | err =>
        rw [traceOf, do2d_run_err a1 a2 pm2 en2 ex2 bi2 ai2 sbs flush dp2 _ _ _ h]
        simp only [postDelayAfter, if_pos rfl, if_neg hne]
        exact postDelayAfter_body _ _ _ _ _ _ htr (no_postDelay_fin a1.pid)
  · rcases h : mFor (linspace a1.start a1.stop a1.numPoints)
      (do2dOuterStep a1 a2 pm2 bi2 ai2 sbs flush) o2 with ⟨o1, tr, r⟩
    have htr : ∀ e ∈ tr, isPostDelayOf a2.pid e = false := by
      intro e he
      refine isLoopEv_not_postDelay _ e ?_
      have hl := emitsOnly_do2dLoop a1 a2 pm2 bi2 ai2 sbs flush o2
      rw [h] at hl
      exact hl e he
    cases r with
    | ok u =>
      cases u
      rw [traceOf, do2d_run_ok a1 a2 pm2 en2 ex2 bi2 ai2 sbs flush dp2 _ _ _ h]
      simp only [postDelayAfter, if_neg hpid, if_pos rfl]
      exact postDelayAfter_body _ _ _ _ _ _ htr (no_postDelay_finTail a2.pid dp2)
    | error k =>
      cases k with
      | ki =>
        rw [traceOf, do2d_run_ki a1 a2 pm2 en2 ex2 bi2 ai2 sbs flush dp2 _ _ _ h]
        simp only [postDelayAfter, if_neg hpid, if_pos rfl]
        exact postDelayAfter_body _ _ _ _ _ _ htr (no_postDelay_finTail a2.pid dp2)
      | err =>
        rw [traceOf, do2d_run_err a1 a2 pm2 en2 ex2 bi2 ai2 sbs flush dp2 _ _ _ h]
        simp only [postDelayAfter, if_neg hpid, if_pos rfl]
        exact postDelayAfter_body _ _ _ _ _ _ htr (no_postDelay_fin a2.pid)

/-- Witness for C10: a tiny `do1d` run and a tiny `do2d` run with
distinct parameter ids, both uninterrupted, starting from `post_delay`
7. -/
theorem claim_C10_witness :
    postDelayAfter 0 7 (traceOf (do1d ⟨0, 0, 1, 2, 3⟩ [] 0 0 0 0 true) none) = 3 ∧
    postDelayAfter 0 7
      (traceOf (do2d ⟨0, 0, 1, 2, 4⟩ ⟨1, 0, 1, 2, 5⟩ [] 0 0 0 0 true false true) none) = 4 ∧
    postDelayAfter 1 7
      (traceOf (do2d ⟨0, 0, 1, 2, 4⟩ ⟨1, 0, 1, 2, 5⟩ [] 0 0 0 0 true false true) none) = 5 :=
  claim_C10 ⟨0, 0, 1, 2, 3⟩ ⟨0, 0, 1, 2, 4⟩ ⟨1, 0, 1, 2, 5⟩ [] [] 0 0 0 0 0 0 0 0
    true true true false none none 7 7 7 (by decide)

theorem rowsOf_append (l1 l2 : List Ev) : rowsOf (l1 ++ l2) = rowsOf l1 ++ rowsOf l2 := by
  simp [rowsOf, List.filterMap_append]

theorem rowsOf_cons_setParam (p : Nat) (v : ℚ) (tr : List Ev) :
    rowsOf (Ev.setParam p v :: tr) = rowsOf tr := rfl

theorem rowsOf_cons_postDelay (p : Nat) (d : ℚ) (tr : List Ev) :
    rowsOf (Ev.postDelaySet p d :: tr) = rowsOf tr := rfl

theorem rowsOf_cons_addRow (r : List (Nat × ℚ)) (tr : List Ev) :
    rowsOf (Ev.addRow r :: tr) = r :: rowsOf tr := rfl

theorem rowsOf_actionMap (k n : Nat) :
    rowsOf ((List.range n).map (fun i => Ev.runAction k i)) = [] := by
  induction n with
  | zero => rfl
  | succ m ih => rw [List.range_succ, List.map_append, rowsOf_append, ih]; rfl

theorem rowsOf_pmTrace (pm : List PMeas) : rowsOf (pmTrace pm) = [] := by
  induction pm with
  | nil => rfl
  | cons x rest ih =>
    cases x with
    | readable p v => simpa [pmTrace, rowsOf] using ih
    | callF t => simpa [pmTrace, rowsOf] using ih

theorem rowsOf_stepTrace (a : SweepArgs) (pm : List PMeas) (bi ai : Nat) (sp : ℚ) :
    rowsOf (stepTrace a pm bi ai sp) = [(a.pid, sp) :: measPairs pm] := by
  rw [stepTrace, rowsOf_append, rowsOf_actionMap, rowsOf_cons_setParam, rowsOf_append,
    rowsOf_pmTrace, rowsOf_cons_addRow, rowsOf_actionMap]
  simp

theorem rowsOf_flatten_steps (a : SweepArgs) (pm : List PMeas) (bi ai : Nat) :
    ∀ sps : List ℚ, rowsOf ((sps.map (stepTrace a pm bi ai)).flatten)
      = sps.map (fun sp => (a.pid, sp) :: measPairs pm) := by
  intro sps
  induction sps with
  | nil => rfl
  | cons sp rest ih =>
    simp only [List.map_cons, List.flatten_cons, rowsOf_append, rowsOf_stepTrace, ih]
    rfl

theorem measPairs_length (pm : List PMeas) : (measPairs pm).length = readableCount pm := by
  induction pm with
  | nil => rfl
  | cons x rest ih =>
    cases x with
    | readable p v => simp [measPairs, readableCount, ih]
    | callF t => simp [measPairs, readableCount, ih]

/-- C5: for every 1D sweep over N setpoints with M measured readable
parameters (callables contribute no column), exactly N result rows are
written, and each row contains exactly one binding keyed by the swept
parameter (carrying its setpoint) and M bindings keyed by other
parameters. -/
theorem claim_C5 (a : SweepArgs) (pm : List PMeas) (en ex bi ai : Nat) (dp : Bool)
    (hpid : ∀ q ∈ measPairs pm, q.1 ≠ a.pid) :
    (do1dRows a pm en ex bi ai dp).length = a.numPoints ∧
    ∀ r ∈ do1dRows a pm en ex bi ai dp,
      r.countP (fun q => q.1 == a.pid) = 1 ∧
      r.countP (fun q => !(q.1 == a.pid)) = readableCount pm := by
  have hfin : rowsOf (Ev.finalizeRec :: Ev.handlePlot :: plotTail dp) = [] := by
    cases dp
    · rfl
    · rfl
  have hrows : do1dRows a pm en ex bi ai dp
      = (linspace a.start a.stop a.numPoints).map
          (fun sp => (a.pid, sp) :: measPairs pm) := by
    rw [do1dRows, traceOf, do1d_run_ok a pm en ex bi ai dp _ _ _ (do1dLoop_none a pm bi ai)]
    rw [rowsOf_cons_postDelay, rowsOf_append, rowsOf_append, rowsOf_append]
    rw [rowsOf_flatten_steps, hfin]
    simp only [enterTrace, exitTrace, rowsOf_actionMap, List.append_nil, List.nil_append]
  constructor
  · rw [hrows]
    simp [linspace_length]
  · intro r hr
    rw [hrows] at hr
    simp only [List.mem_map] at hr
    obtain ⟨sp, _, rfl⟩ := hr
    have hc0 : (measPairs pm).countP (fun q => q.1 == a.pid) = 0 := by
      rw [List.countP_eq_zero]
      intro q hq
      simp [hpid q hq]
    have hc1 : (measPairs pm).countP (fun q => !(q.1 == a.pid)) = (measPairs pm).length := by
      rw [List.countP_eq_length]
      intro q hq
      simp [hpid q hq]
    constructor
    · simp [List.countP_cons, hc0]
    · simp [List.countP_cons, hc1, measPairs_length]

/-- Witness for C5: a 3-point sweep on parameter 0 measuring two
readable parameters and one callable gives 3 rows of 1 + 2 bindings. -/
theorem claim_C5_witness :
    (do1dRows ⟨0, 0, 1, 3, 0⟩ [PMeas.readable 1 5, PMeas.callF 7, PMeas.readable 2 6]
        0 0 0 0 true).length = 3 ∧
    ∀ r ∈ do1dRows ⟨0, 0, 1, 3, 0⟩ [PMeas.readable 1 5, PMeas.callF 7, PMeas.readable 2 6]
        0 0 0 0 true,
      r.countP (fun q => q.1 == 0) = 1 ∧
      r.countP (fun q => !(q.1 == 0)) = readableCount
        [PMeas.readable 1 5, PMeas.callF 7, PMeas.readable 2 6] :=
  claim_C5 ⟨0, 0, 1, 3, 0⟩ [PMeas.readable 1 5, PMeas.callF 7, PMeas.readable 2 6]
    0 0 0 0 true (by decide)

theorem countSet_pmTrace (pid : Nat) (pm : List PMeas) :
    (pmTrace pm).countP (isSetOf pid) = 0 := by
  induction pm with
  | nil => rfl
  | cons x rest ih =>
    cases x with
    | readable p v => simp [pmTrace, List.countP_cons, isSetOf, ih]
    | callF t => simp [pmTrace, List.countP_cons, isSetOf, ih]

theorem countSetVal_pmTrace (pid : Nat) (v : ℚ) (pm : List PMeas) :
    (pmTrace pm).countP (isSetValOf pid v) = 0 := by
  induction pm with
  | nil => rfl
  | cons x rest ih =>
    cases x with
    | readable p w => simp [pmTrace, List.countP_cons, isSetValOf, ih]
    | callF t => simp [pmTrace, List.countP_cons, isSetValOf, ih]

theorem countSet_actionMap (pid k n : Nat) :
    ((List.range n).map (fun i => Ev.runAction k i)).countP (isSetOf pid) = 0 := by
  rw [List.countP_eq_zero]
  intro e he
  simp only [List.mem_map] at he
  obtain ⟨i, _, rfl⟩ := he
  simp [isSetOf]

theorem countSetVal_actionMap (pid : Nat) (v : ℚ) (k n : Nat) :
    ((List.range n).map (fun i => Ev.runAction k i)).countP (isSetValOf pid v) = 0 := by
  rw [List.countP_eq_zero]
  intro e he
  simp only [List.mem_map] at he
  obtain ⟨i, _, rfl⟩ := he
  simp [isSetValOf]

theorem countP_flatten_eq {γ : Type} (p : γ → Bool) :
    ∀ L : List (List γ), L.flatten.countP p = (L.map (fun l => l.countP p)).sum := by
  intro L
  induction L with
  | nil => rfl
  | cons l rest ih => simp [List.countP_append, ih]

theorem sum_map_const_nat {γ : Type} (c : Nat) :
    ∀ l : List γ, (l.map (fun _ => c)).sum = l.length * c := by
  intro l
  induction l with
  | nil => simp
  | cons x rest ih =>
    simp [ih]
    ring

theorem sum_ite_count (v : ℚ) : ∀ l : List ℚ,
    (l.map (fun x => if x = v then 0 else 1)).sum + l.countP (fun x => x == v) = l.length := by
  intro l
  induction l with
  | nil => rfl
  | cons x rest ih =>
    by_cases h : x = v
    · simp [h, List.countP_cons]
      omega
    · simp [h, List.countP_cons]
      omega

theorem countSet_inner2 (a1 a2 : SweepArgs) (pm : List PMeas) (sp1 sp2 : ℚ) :
    (inner2Trace a1 a2 pm true sp1 sp2).countP (isSetOf a2.pid)
      = if sp2 = a2.start then 0 else 1 := by
  by_cases h : sp2 = a2.start
  · simp [inner2Trace, h, List.countP_append, List.countP_cons, countSet_pmTrace, isSetOf]
  · simp [inner2Trace, h, List.countP_append, List.countP_cons, countSet_pmTrace, isSetOf]

theorem countSetVal_inner2 (a1 a2 : SweepArgs) (pm : List PMeas) (sp1 sp2 : ℚ) :
    (inner2Trace a1 a2 pm true sp1 sp2).countP (isSetValOf a2.pid a2.start) = 0 := by
  by_cases h : sp2 = a2.start
  · simp [inner2Trace, h, List.countP_append, List.countP_cons, countSetVal_pmTrace,
      isSetValOf]
  · simp [inner2Trace, h, List.countP_append, List.countP_cons, countSetVal_pmTrace,
      isSetValOf]

theorem countSet_innerLoop (a1 a2 : SweepArgs) (pm : List PMeas) (sp1 : ℚ)
    (hK : 1 ≤ a2.numPoints) (hne : a2.start ≠ a2.stop) :
    (((linspace a2.start a2.stop a2.numPoints).map
        (inner2Trace a1 a2 pm true sp1)).flatten).countP (isSetOf a2.pid)
      = a2.numPoints - 1 := by
  rw [countP_flatten_eq, List.map_map]
  have h1 : (linspace a2.start a2.stop a2.numPoints).map
      ((fun l => l.countP (isSetOf a2.pid)) ∘ inner2Trace a1 a2 pm true sp1)
      = (linspace a2.start a2.stop a2.numPoints).map
          (fun sp2 => if sp2 = a2.start then 0 else 1) := by
    apply List.map_congr_left
    intro sp2 _
    simpa using countSet_inner2 a1 a2 pm sp1 sp2
  rw [h1]
  have h2 := sum_ite_count a2.start (linspace a2.start a2.stop a2.numPoints)
  have h3 := linspace_countP_start a2.start a2.stop a2.numPoints hK hne
  have h4 := linspace_length a2.start a2.stop a2.numPoints
  omega

theorem countSetVal_innerLoop (a1 a2 : SweepArgs) (pm : List PMeas) (sp1 : ℚ) :
    (((linspace a2.start a2.stop a2.numPoints).map
        (inner2Trace a1 a2 pm true sp1)).flatten).countP (isSetValOf a2.pid a2.start)
      = 0 := by
  rw [countP_flatten_eq, List.map_map]
  have h1 : (linspace a2.start a2.stop a2.numPoints).map
      ((fun l => l.countP (isSetValOf a2.pid a2.start)) ∘ inner2Trace a1 a2 pm true sp1)
      = (linspace a2.start a2.stop a2.numPoints).map (fun _ => 0) := by
    apply List.map_congr_left
    intro sp2 _
    simpa using countSetVal_inner2 a1 a2 pm sp1 sp2
  rw [h1, sum_map_const_nat]
  simp

theorem countSet_outer2 (a1 a2 : SweepArgs) (pm : List PMeas) (bi ai : Nat) (flush : Bool)
    (sp1 : ℚ) (hpid : a1.pid ≠ a2.pid) (hK : 1 ≤ a2.numPoints)
    (hne : a2.start ≠ a2.stop) :
    (outer2Trace a1 a2 pm bi ai true flush sp1).countP (isSetOf a2.pid)
      = a2.numPoints := by
  have hin := countSet_innerLoop a1 a2 pm sp1 hK hne
  have hA := countSet_actionMap a2.pid 2 bi
  have hB := countSet_actionMap a2.pid 3 ai
  have hif : isSetOf a2.pid (Ev.setParam a1.pid sp1) = false := by
    simp only [isSetOf, beq_eq_false_iff_ne, ne_eq]
    exact hpid
  have hflush : ((if flush = true then [Ev.flushData] else []) : List Ev).countP
      (isSetOf a2.pid) = 0 := by
    cases flush
    · rfl
    · rfl
  rw [outer2Trace, if_pos rfl]
  simp only [List.countP_append, List.countP_cons, hin, hA, hB, hflush, hif]
  simp [isSetOf]
  omega

theorem countSetVal_outer2 (a1 a2 : SweepArgs) (pm : List PMeas) (bi ai : Nat)
    (flush : Bool) (sp1 : ℚ) (hpid : a1.pid ≠ a2.pid) :
    (outer2Trace a1 a2 pm bi ai true flush sp1).countP (isSetValOf a2.pid a2.start)
      = 1 := by
  have hin := countSetVal_innerLoop a1 a2 pm sp1
  have hA := countSetVal_actionMap a2.pid a2.start 2 bi
  have hB := countSetVal_actionMap a2.pid a2.start 3 ai
  have hb : (a1.pid == a2.pid) = false := by
    simpa [beq_eq_false_iff_ne] using hpid
  have hif : isSetValOf a2.pid a2.start (Ev.setParam a1.pid sp1) = false := by
    simp [isSetValOf, hb]
  have hflush : ((if flush = true then [Ev.flushData] else []) : List Ev).countP
      (isSetValOf a2.pid a2.start) = 0 := by
    cases flush
    · rfl
    · rfl
  rw [outer2Trace, if_pos rfl]
  simp only [List.countP_append, List.countP_cons, hin, hA, hB, hflush, hif]
  simp [isSetValOf]

theorem countSet_do2dFlatten (a1 a2 : SweepArgs) (pm : List PMeas) (bi ai : Nat)
    (flush : Bool) (hpid : a1.pid ≠ a2.pid) (hK : 1 ≤ a2.numPoints)
    (hne : a2.start ≠ a2.stop) :
    (((linspace a1.start a1.stop a1.numPoints).map
        (outer2Trace a1 a2 pm bi ai true flush)).flatten).countP (isSetOf a2.pid)
      = a1.numPoints * a2.numPoints := by
  rw [countP_flatten_eq, List.map_map]
  have h1 : (linspace a1.start a1.stop a1.numPoints).map
      ((fun l => l.countP (isSetOf a2.pid)) ∘ outer2Trace a1 a2 pm bi ai true flush)
      = (linspace a1.start a1.stop a1.numPoints).map (fun _ => a2.numPoints) := by
    apply List.map_congr_left
    intro sp1 _
    simpa using countSet_outer2 a1 a2 pm bi ai flush sp1 hpid hK hne
  rw [h1, sum_map_const_nat, linspace_length]

theorem countSetVal_do2dFlatten (a1 a2 : SweepArgs) (pm : List PMeas) (bi ai : Nat)
    (flush : Bool) (hpid : a1.pid ≠ a2.pid) :
    (((linspace a1.start a1.stop a1.numPoints).map
        (outer2Trace a1 a2 pm bi ai true flush)).flatten).countP
      (isSetValOf a2.pid a2.start) = a1.numPoints := by
  rw [countP_flatten_eq, List.map_map]
  have h1 : (linspace a1.start a1.stop a1.numPoints).map
      ((fun l => l.countP (isSetValOf a2.pid a2.start)) ∘
        outer2Trace a1 a2 pm bi ai true flush)
      = (linspace a1.start a1.stop a1.numPoints).map (fun _ => 1) := by
    apply List.map_congr_left
    intro sp1 _
    simpa using countSetVal_outer2 a1 a2 pm bi ai flush sp1 hpid
  rw [h1, sum_map_const_nat, linspace_length]
  omega

/-- C1 counterexample: with `set_before_sweep = True`, one outer point
and K = 2 inner points, the code performs 2 `set()` invocations on the
inner parameter during the single outer step — the pre-sweep set plus
the K − 1 = 1 in-loop sets — so the claim that counting `set()`
invocations on the inner parameter yields exactly K − 1 per outer step
is false. -/
theorem claim_C1_counterexample :
    (traceOf (do2d ⟨0, 0, 0, 1, 0⟩ ⟨1, 0, 1, 2, 0⟩ [] 0 0 0 0 true false false)
        none).countP (isSetOf 1) = 2 ∧
    ¬ (traceOf (do2d ⟨0, 0, 0, 1, 0⟩ ⟨1, 0, 1, 2, 0⟩ [] 0 0 0 0 true false false)
        none).countP (isSetOf 1) = 1 * (2 - 1) := by
  have h2 : (traceOf (do2d ⟨0, 0, 0, 1, 0⟩ ⟨1, 0, 1, 2, 0⟩ [] 0 0 0 0 true false false)
      none).countP (isSetOf 1) = 2 := by
    have hout := countSet_do2dFlatten ⟨0, 0, 0, 1, 0⟩ ⟨1, 0, 1, 2, 0⟩ [] 0 0 false
      (by decide) (by decide) (by norm_num)
    have hA := countSet_actionMap 1 0 0
    have hB := countSet_actionMap 1 1 0
    have hfin : (Ev.finalizeRec :: Ev.handlePlot :: plotTail false).countP (isSetOf 1)
        = 0 := rfl
    rw [traceOf, do2d_run_ok ⟨0, 0, 0, 1, 0⟩ ⟨1, 0, 1, 2, 0⟩ [] 0 0 0 0 true false false
      _ _ _ (do2dLoop_none ⟨0, 0, 0, 1, 0⟩ ⟨1, 0, 1, 2, 0⟩ [] 0 0 true false)]
    simp only [enterTrace, exitTrace, List.countP_append, List.countP_cons, hout, hA, hB,
      hfin]
    simp [isSetOf]
  refine ⟨h2, ?_⟩
  rw [h2]
  decide

/-- C1 amended: for a 2D sweep with `set_before_sweep = True`, N outer
points, K ≥ 1 inner points and distinct inner bounds, the inner value
equal to `innerSpec.start` is set exactly once per outer iteration (N
set() invocations with that value in total, all from the pre-sweep
set), and counting all `set()` invocations on the inner parameter
yields exactly K per outer step — 1 pre-sweep plus K − 1 in-loop — for
N·K in total, not K − 1 per outer step. -/
theorem claim_C1_amended (a1 a2 : SweepArgs) (pm : List PMeas) (en ex bi ai : Nat)
    (flush dp : Bool) (hpid : a1.pid ≠ a2.pid) (hK : 1 ≤ a2.numPoints)
    (hne : a2.start ≠ a2.stop) :
    (traceOf (do2d a1 a2 pm en ex bi ai true flush dp) none).countP
        (isSetValOf a2.pid a2.start) = a1.numPoints ∧
    (traceOf (do2d a1 a2 pm en ex bi ai true flush dp) none).countP (isSetOf a2.pid)
      = a1.numPoints * a2.numPoints := by
  have hout := countSet_do2dFlatten a1 a2 pm bi ai flush hpid hK hne
  have houtv := countSetVal_do2dFlatten a1 a2 pm bi ai flush hpid
  have hfin : (Ev.finalizeRec :: Ev.handlePlot :: plotTail dp).countP (isSetOf a2.pid)
      = 0 := by
    cases dp
    · rfl
    · rfl
  have hfinv : (Ev.finalizeRec :: Ev.handlePlot :: plotTail dp).countP
      (isSetValOf a2.pid a2.start) = 0 := by
    cases dp
    · rfl
    · rfl
  have hA := countSet_actionMap a2.pid 0 en
  have hB := countSet_actionMap a2.pid 1 ex
  have hAv := countSetVal_actionMap a2.pid a2.start 0 en
  have hBv := countSetVal_actionMap a2.pid a2.start 1 ex
  rw [traceOf, do2d_run_ok a1 a2 pm en ex bi ai true flush dp _ _ _
    (do2dLoop_none a1 a2 pm bi ai true flush)]
  constructor
  · simp only [enterTrace, exitTrace, List.countP_append, List.countP_cons,
      houtv, hfinv, hAv, hBv]
    simp [isSetValOf]
  · simp only [enterTrace, exitTrace, List.countP_append, List.countP_cons,
      hout, hfin, hA, hB]
    simp [isSetOf]

/-- Witness for C1 amended: N = 2 outer points, K = 3 inner points from
0 to 1: the inner-start value is set twice in total (once per outer
step) and the inner parameter is set 6 = N·K times in total. -/
theorem claim_C1_amended_witness :
    (traceOf (do2d ⟨0, 0, 1, 2, 0⟩ ⟨1, 0, 1, 3, 0⟩ [] 0 0 0 0 true false false)
        none).countP (isSetValOf 1 0) = 2 ∧
    (traceOf (do2d ⟨0, 0, 1, 2, 0⟩ ⟨1, 0, 1, 3, 0⟩ [] 0 0 0 0 true false false)
        none).countP (isSetOf 1) = 2 * 3 :=
  claim_C1_amended ⟨0, 0, 1, 2, 0⟩ ⟨1, 0, 1, 3, 0⟩ [] 0 0 0 0 false false
    (by decide) (by decide) (by decide)

/-- C9: whatever exception schedule is imposed on the continuous
live-plotting loop — an external stop at any interruptible operation of
any of its states, or none — the window-close event is the final event
of the emitted trace (the `finally` clause runs `self.close()`), and
the outcome of the whole call is exactly the body's outcome, so a
raised stop propagates to the caller only after the close; in
particular a stop scheduled at the first interruptible operation makes
the whole call end in the propagated stop error. -/
theorem claim_C9 (retries pollSteps : Nat) (news : List Bool) (o : Oracle LpE) :
    (∃ pre, (continuousLiveplot retries pollSteps news o).2.1 = pre ++ [LpEv.closeEv] ∧
      (continuousLiveplot retries pollSteps news o).2.2
        = (continuousBody retries pollSteps news o).2.2) ∧
    (continuousLiveplot retries pollSteps news (some (0, LpE.stop))).2.2
      = Except.error LpE.stop := by
  constructor
  · exact ⟨(continuousBody retries pollSteps news o).2.1, rfl, rfl⟩
  · cases retries with
    | zero => rfl
    | succ r => rfl
